import Mathlib

/-!
Verification of the nexios connection-pool subsystem.

This file shallowly embeds the connection pool of the nexios repository:

* `ConnectionPool` (src/nexios/orm/backends/pool/connection_pool.py), the
  synchronous production pool;
* `AsyncConnectionPool` (src/nexios/orm/backends/pool/async_connection_pool.py),
  the cooperative production pool;
* `GenericConnectionPool` (src/nexios/orm/backends/pool/base.py), the simple
  generic pool.

Modelling conventions:

* Connections are identified by natural-number ids (`ConnId`).  The driver
  behaviour of a connection (its `is_connection_open` flag, whether `close`,
  `rollback` or an SQL probe raises) is supplied by an `Env` record of
  functions; `Env.now` is the value returned by `time.monotonic()` during the
  operation (all reads of the clock inside one operation are identified).
  Timestamps and durations are modelled as `Int`.
* `deque`s are Lean lists whose head is the left (cold) end: `append` adds at
  the right, `pop()` takes the last element, `popleft()` takes the head.
* Python `dict`s are association lists with the insertion semantics of
  `setKey` (replace in place, else append); `weakref.WeakSet` is a duplicate
  free list (garbage collection is not modelled: the spec treats membership
  as strong).
* Raising an exception is modelled by the `AcquireResult` error constructors;
  each operation also returns the list of `PoolEvent`s it fires and the list
  of driver calls it performs, the latter tagged with whether the pool's
  critical section (`self._condition` / `self._lock`) is held at the call.
* The embedding is sequential (single caller): on the wait path no concurrent
  `return_connection` can run, so the condition-variable wait expires and the
  acquisition raises its timeout error.
-/

namespace Nexios

abbrev ConnId := Nat

/-- Modelled from the spec: the `PoolEvent` tagged variant is imported by the
pools from `nexios.orm.backends.pool.base`'s missing part; §3 of the spec
lists its five variants. -/
inductive PoolEvent where
  | CONNECTION_CREATED
  | CONNECTION_CLOSED
  | CONNECTION_INVALID
  | POOL_GROW
  | POOL_SHRINK
deriving DecidableEq

/-- Modelled from the spec: the `PoolConfig` value type is imported by the
pools from a module missing from src/; fields and defaults follow §3 of the
spec.  Intervals and timeouts are modelled as `Int` seconds. -/
structure PoolConfig where
  min_size : Nat := 1
  max_size : Nat := 50
  connection_timeout : Int := 5
  max_lifetime : Int := 7200
  idle_timeout : Int := 300
  health_check_interval : Int := 60
  shrink_interval : Int := 30
  max_idle : Nat := 10
deriving DecidableEq

/-- Driver-facing operations the pool may invoke on a connection or factory. -/
inductive DriverCall where
  /-- reading `conn.is_connection_open` inside `_quick_validate` -/
  | validate (c : ConnId)
  /-- `conn.rollback()` inside `_reset_connection` -/
  | rollback (c : ConnId)
  /-- `conn.close()` inside `_safe_close_connection` -/
  | closeConn (c : ConnId)
  /-- `self._create_connection()` (the injected factory) -/
  | create
  /-- `conn.cursor()` / `cursor.execute("SELECT 1")` in the sync health check -/
  | sqlProbe (c : ConnId)
deriving DecidableEq

/-- A driver call together with whether the pool's critical section is held
while it is performed. -/
structure LockedCall where
  call : DriverCall
  lockHeld : Bool
deriving DecidableEq

/-- Environment: driver behaviour of each connection id and the current
monotonic time. -/
structure Env where
  /-- value of `conn.is_connection_open` (a raising access behaves as `false`
  through the pools' `try`/`except`) -/
  isOpen : ConnId → Bool
  /-- whether the `SELECT 1` probe of the sync health check raises for `c` -/
  sqlProbeFails : ConnId → Bool
  /-- whether `conn.close()` raises for `c` -/
  closeRaises : ConnId → Bool
  /-- current `time.monotonic()` -/
  now : Int

/-- State of a production pool (`ConnectionPool.__init__`): the idle deque
`_available` of `(connection, last_used)` pairs, the `_in_use` map from
connection to acquire timestamp, the `_all_connections` set, the
`_connection_times` and `_connection_usage` maps, the `_closed` flag, the
`_stop_event` flag and the four statistics counters. -/
structure PoolState where
  available : List (ConnId × Int)
  in_use : List (ConnId × Int)
  all_connections : List ConnId
  connection_times : List (ConnId × Int)
  connection_usage : List (ConnId × Nat)
  closed : Bool
  stopped : Bool
  connections_created : Nat
  connections_closed : Nat
  acquire_requests : Nat
  acquire_timeouts : Nat
deriving DecidableEq

/-- Result of an acquisition: a connection, or one of the raised errors
(`PoolClosed`, the acquire timeout, or the factory's propagated error). -/
inductive AcquireResult where
  | ok (c : ConnId)
  | poolClosed
  | timeout
  | creationFailed
deriving DecidableEq

/-- Kind of liveness probe a maintenance scan performs on an idle connection. -/
inductive ProbeKind where
  /-- `conn.cursor()` followed by `cursor.execute("SELECT 1")` (issues SQL) -/
  | sqlSelect1
  /-- reading `conn.is_connection_open` (no SQL) -/
  | openFlag
deriving DecidableEq

/-- Dictionary lookup with default (`d.get(k, default)` / `d.get(k, 0)`). -/
def lookupD {α : Type} : List (ConnId × α) → ConnId → α → α
  | [], _, d => d
  | (k, v) :: rest, c, d => if k = c then v else lookupD rest c d

/-- Dictionary deletion `del d[k]` (removes the key when present). -/
def eraseKey {α : Type} : List (ConnId × α) → ConnId → List (ConnId × α)
  | [], _ => []
  | (k, v) :: rest, c => if k = c then eraseKey rest c else (k, v) :: eraseKey rest c

/-- Dictionary assignment `d[k] = v` (replace in place, else append). -/
def setKey {α : Type} : List (ConnId × α) → ConnId → α → List (ConnId × α)
  | [], c, v => [(c, v)]
  | (k, w) :: rest, c, v => if k = c then (c, v) :: rest else (k, w) :: setKey rest c v

/-- Dictionary membership `k in d`. -/
def hasKey {α : Type} : List (ConnId × α) → ConnId → Bool
  | [], _ => false
  | (k, _) :: rest, c => if k = c then true else hasKey rest c

/-- Set removal `s.remove(c)` / `s.discard(c)`. -/
def removeConn : List ConnId → ConnId → List ConnId
  | [], _ => []
  | x :: rest, c => if x = c then removeConn rest c else x :: removeConn rest c

/-- Set insertion `s.add(c)` (no effect when already a member). -/
def addConn (l : List ConnId) (c : ConnId) : List ConnId :=
  if c ∈ l then l else l ++ [c]

/-- Removal of every idle entry for a connection, the
`deque([(c, t) for c, t in self._available if c != conn])` rebuild. -/
def removeEntries : List (ConnId × Int) → ConnId → List (ConnId × Int)
  | [], _ => []
  | (k, t) :: rest, c => if k = c then removeEntries rest c else (k, t) :: removeEntries rest c

namespace ConnectionPool

/-- Output of a helper that may close a connection: new state, events fired,
driver calls performed. -/
structure CloseOut where
  st : PoolState
  events : List (PoolEvent × ConnId)
  calls : List LockedCall

/-- Embedding of `ConnectionPool._safe_close_connection`: drop the connection
from `_all_connections`, `_connection_times` and `_connection_usage`, call
`conn.close()` and fire `CONNECTION_CLOSED`; a raising `close()` skips the
event (the removals have already happened inside the same `try`). -/
def safe_close_connection (env : Env) (lockHeld : Bool) (s : PoolState) (c : ConnId) :
    CloseOut :=
  let s' : PoolState :=
    { s with
      all_connections := removeConn s.all_connections c
      connection_times := eraseKey s.connection_times c
      connection_usage := eraseKey s.connection_usage c }
  if env.closeRaises c then
    { st := s', events := [], calls := [⟨.closeConn c, lockHeld⟩] }
  else
    { st := s', events := [(.CONNECTION_CLOSED, c)], calls := [⟨.closeConn c, lockHeld⟩] }

/-- Embedding of `ConnectionPool._quick_validate`: the driver liveness flag,
and, when a `last_used` argument is given, the `max_lifetime` age check
against `_connection_times` (missing entries default to 0). -/
def quick_validate (cfg : PoolConfig) (env : Env) (s : PoolState) (c : ConnId)
    (last_used : Option Int) : Bool :=
  if env.isOpen c then
    match last_used with
    | some _ => decide ((env.now - lookupD s.connection_times c 0) ≤ cfg.max_lifetime)
    | none => true
  else false

/-- Embedding of the `while self._available:` FAST PATH loop of
`ConnectionPool.get_connection`.  `rev` is the idle deque reversed (hot end
first, matching `pop()`); the loop validates each popped connection, keeping
the first valid one and closing invalid ones.  Returns the chosen connection
(if any), the state (its `available` field restored from the unvisited
remainder), events and driver calls. -/
def fast_path (cfg : PoolConfig) (env : Env) (start_time : Int) :
    List (ConnId × Int) → PoolState →
      Option ConnId × PoolState × List (PoolEvent × ConnId) × List LockedCall
  | [], s => (none, { s with available := [] }, [], [])
  | (c, lu) :: rest, s =>
    if quick_validate cfg env s c (some lu) then
      (some c,
       { s with
         available := rest.reverse
         in_use := setKey s.in_use c start_time
         connection_usage := setKey s.connection_usage c (lookupD s.connection_usage c 0 + 1) },
       [], [⟨.validate c, true⟩])
    else
      let o := safe_close_connection env true s c
      let s1 := { o.st with connections_closed := o.st.connections_closed + 1 }
      let r := fast_path cfg env start_time rest s1
      (r.1, r.2.1, o.events ++ r.2.2.1, (⟨.validate c, true⟩ :: o.calls) ++ r.2.2.2)

/-- Output of an acquisition. -/
structure AcquireOut where
  res : AcquireResult
  st : PoolState
  events : List (PoolEvent × ConnId)
  calls : List LockedCall

/-- Embedding of `ConnectionPool.get_connection`.  `factory` is the outcome of
`self._create_connection()` if the grow path invokes it: `some c` yields a
fresh connection `c`, `none` raises.  Raising while closed happens before the
statistics update; everything from the fast path on runs inside
`with self._condition:`.  A failing factory on the MEDIUM PATH is logged and
execution continues to the SLOW PATH; in this sequential model no connection
is returned concurrently, so the wait expires and the call raises its
timeout error (also the immediate outcome when `connection_timeout ≤ 0`). -/
def get_connection (cfg : PoolConfig) (env : Env) (factory : Option ConnId)
    (s : PoolState) : AcquireOut :=
  if s.closed then { res := .poolClosed, st := s, events := [], calls := [] }
  else
    let s0 := { s with acquire_requests := s.acquire_requests + 1 }
    let start_time := env.now
    let fp := fast_path cfg env start_time s0.available.reverse s0
    match fp.1 with
    | some c => { res := .ok c, st := fp.2.1, events := fp.2.2.1, calls := fp.2.2.2 }
    | none =>
      let s1 := fp.2.1
      if s1.all_connections.length < cfg.max_size then
        match factory with
        | some c =>
          { res := .ok c
            st :=
              { s1 with
                all_connections := addConn s1.all_connections c
                in_use := setKey s1.in_use c start_time
                connection_times := setKey s1.connection_times c start_time
                connection_usage := setKey s1.connection_usage c 1
                connections_created := s1.connections_created + 1 }
            events := fp.2.2.1 ++ [(.CONNECTION_CREATED, c), (.POOL_GROW, c)]
            calls := fp.2.2.2 ++ [⟨.create, true⟩] }
        | none =>
          { res := .timeout
            st := { s1 with acquire_timeouts := s1.acquire_timeouts + 1 }
            events := fp.2.2.1
            calls := fp.2.2.2 ++ [⟨.create, true⟩] }
      else
        { res := .timeout
          st := { s1 with acquire_timeouts := s1.acquire_timeouts + 1 }
          events := fp.2.2.1
          calls := fp.2.2.2 }

/-- Embedding of `ConnectionPool.return_connection`.  A closed pool closes the
connection before taking the lock; otherwise, under the lock, a connection
absent from `_in_use` is closed with no other processing, and a member is
validated (no age check), reset via `rollback` and appended to the idle
deque, or closed and reported invalid. -/
def return_connection (cfg : PoolConfig) (env : Env) (s : PoolState) (c : ConnId) :
    CloseOut :=
  if s.closed then
    safe_close_connection env false s c
  else
    let return_time := env.now
    if hasKey s.in_use c then
      let s1 := { s with in_use := eraseKey s.in_use c }
      if quick_validate cfg env s1 c none then
        { st := { s1 with available := s1.available ++ [(c, return_time)] }
          events := []
          calls := [⟨.validate c, true⟩, ⟨.rollback c, true⟩] }
      else
        let o := safe_close_connection env true s1 c
        { st := { o.st with connections_closed := o.st.connections_closed + 1 }
          events := o.events ++ [(.CONNECTION_INVALID, c)]
          calls := ⟨.validate c, true⟩ :: o.calls }
    else
      safe_close_connection env true s c

/-- Embedding of the body of the `for conn, last_used in list(self._available)`
scan loop of `ConnectionPool._background_health_check`: a connection past
`max_lifetime` is bad outright; otherwise one idle for more than a hardcoded
60 seconds is probed by executing `SELECT 1` through a cursor and is bad when
the probe raises.  Returns whether the entry is bad and the probe performed,
if any. -/
def scan_entry (cfg : PoolConfig) (env : Env) (times : List (ConnId × Int))
    (c : ConnId) (lu : Int) : Bool × Option ProbeKind :=
  if env.now - lookupD times c 0 > cfg.max_lifetime then (true, none)
  else if env.now - lu > 60 then (env.sqlProbeFails c, some .sqlSelect1)
  else (false, none)

/-- Embedding of the scan phase of `ConnectionPool._background_health_check`:
collects `bad_connections` in scan order and fires `CONNECTION_INVALID` for
each failed probe. -/
def scan_phase (cfg : PoolConfig) (env : Env) (times : List (ConnId × Int)) :
    List (ConnId × Int) → List ConnId × List (PoolEvent × ConnId)
  | [] => ([], [])
  | (c, lu) :: rest =>
    let r := scan_phase cfg env times rest
    match scan_entry cfg env times c lu with
    | (true, none) => (c :: r.1, r.2)
    | (true, some _) => (c :: r.1, (.CONNECTION_INVALID, c) :: r.2)
    | (false, _) => r

/-- Embedding of the removal loop of `_background_health_check`: for each bad
connection, rebuild the idle deque without it, close it and bump
`connections_closed`. -/
def remove_bad (env : Env) : List ConnId → PoolState →
    PoolState × List (PoolEvent × ConnId)
  | [], s => (s, [])
  | c :: rest, s =>
    let s0 := { s with available := removeEntries s.available c }
    let o := safe_close_connection env true s0 c
    let s1 := { o.st with connections_closed := o.st.connections_closed + 1 }
    let r := remove_bad env rest s1
    (r.1, o.events ++ r.2)

/-- Embedding of `ConnectionPool._background_health_check` (also invoked by
`ConnectionPool.health_check`): no-op on a closed pool, otherwise the scan
phase followed by the removal loop, all under the lock. -/
def background_health_check (cfg : PoolConfig) (env : Env) (s : PoolState) :
    PoolState × List (PoolEvent × ConnId) :=
  if s.closed then (s, [])
  else
    let sc := scan_phase cfg env s.connection_times s.available
    let r := remove_bad env sc.1 s
    (r.1, sc.2 ++ r.2)

/-- Embedding of the `while len(self._available) > max_idle_to_keep:` removal
loop of `ConnectionPool._background_shrink`: pop from the cold (left) end,
close, bump `connections_closed`, fire `POOL_SHRINK`.  The explicit list
argument is the idle deque being consumed; the state's `available` field is
restored from the remainder on exit. -/
def shrink_phase1 (env : Env) (keep : Int) :
    List (ConnId × Int) → PoolState → PoolState × List (PoolEvent × ConnId)
  | [], s => ({ s with available := [] }, [])
  | (c, lu) :: rest, s =>
    if ((rest.length + 1 : Nat) : Int) > keep then
      let o := safe_close_connection env true s c
      let s1 := { o.st with connections_closed := o.st.connections_closed + 1 }
      let r := shrink_phase1 env keep rest s1
      (r.1, o.events ++ (.POOL_SHRINK, c) :: r.2)
    else
      ({ s with available := (c, lu) :: rest }, [])

/-- Embedding of the idle-timeout pass of `ConnectionPool._background_shrink`:
the idle deque is snapshotted and cleared (the caller passes the snapshot and
a state with `available := []`); entries idle beyond `idle_timeout` are
closed, counted and reported with an explicit `CONNECTION_CLOSED`, the rest
re-appended. -/
def shrink_phase2 (cfg : PoolConfig) (env : Env) :
    List (ConnId × Int) → PoolState → PoolState × List (PoolEvent × ConnId)
  | [], s => (s, [])
  | (c, lu) :: rest, s =>
    if env.now - lu > cfg.idle_timeout then
      let o := safe_close_connection env true s c
      let s1 := { o.st with connections_closed := o.st.connections_closed + 1 }
      let r := shrink_phase2 cfg env rest s1
      (r.1, o.events ++ (.CONNECTION_CLOSED, c) :: r.2)
    else
      shrink_phase2 cfg env rest { s with available := s.available ++ [(c, lu)] }

/-- Embedding of `ConnectionPool._background_shrink`: no-op on a closed pool
or when `|idle| + |in-use| ≤ min_size`; otherwise keep at most
`max(min_size − |in-use|, max_idle)` idle connections (removing surplus from
the cold end) and then retire entries idle beyond `idle_timeout`. -/
def background_shrink (cfg : PoolConfig) (env : Env) (s : PoolState) :
    PoolState × List (PoolEvent × ConnId) :=
  if s.closed then (s, [])
  else
    let total_size := s.available.length + s.in_use.length
    if total_size ≤ cfg.min_size then (s, [])
    else
      let max_idle_to_keep : Int :=
        max ((cfg.min_size : Int) - (s.in_use.length : Int)) (cfg.max_idle : Int)
      let p1 := shrink_phase1 env max_idle_to_keep s.available s
      let p2 := shrink_phase2 cfg env p1.1.available { p1.1 with available := [] }
      (p2.1, p1.2 ++ p2.2)

/-- Embedding of the per-connection loop of `ConnectionPool.close`: close each
listed connection through `_safe_close_connection` (note: `close` does not
touch the statistics counters). -/
def close_seq (env : Env) : List ConnId → PoolState →
    PoolState × List (PoolEvent × ConnId) × List LockedCall
  | [], s => (s, [], [])
  | c :: rest, s =>
    let o := safe_close_connection env true s c
    let r := close_seq env rest o.st
    (r.1, o.events ++ r.2.1, o.calls ++ r.2.2)

/-- Embedding of `ConnectionPool.close`: a second call returns at once; the
first sets `_closed`, sets `_stop_event`, closes every idle then every in-use
connection and clears both structures. -/
def close (env : Env) (s : PoolState) :
    PoolState × List (PoolEvent × ConnId) × List LockedCall :=
  if s.closed then (s, [], [])
  else
    let s0 := { s with closed := true, stopped := true }
    let r1 := close_seq env (s0.available.map Prod.fst) s0
    let s2 := { r1.1 with available := [] }
    let r2 := close_seq env (s2.in_use.map Prod.fst) s2
    ({ r2.1 with in_use := [] }, r1.2.1 ++ r2.2.1, r1.2.2 ++ r2.2.2)

/-- Embedding of one iteration of the `for _ in range(self.config.min_size)`
loop of `ConnectionPool._initialize_pool` folded over a list of factory
outcomes (`none` = the factory raised, which is logged and skipped): a fresh
connection is appended to the idle deque, recorded in `_all_connections`,
`_connection_times` and `_connection_usage`, counted and reported. -/
def init_pool (env : Env) : List (Option ConnId) → PoolState →
    PoolState × List (PoolEvent × ConnId)
  | [], s => (s, [])
  | none :: rest, s => init_pool env rest s
  | some c :: rest, s =>
    let s1 : PoolState :=
      { s with
        available := s.available ++ [(c, env.now)]
        all_connections := addConn s.all_connections c
        connection_times := setKey s.connection_times c env.now
        connection_usage := setKey s.connection_usage c 0
        connections_created := s.connections_created + 1 }
    let r := init_pool env rest s1
    (r.1, (.CONNECTION_CREATED, c) :: r.2)

end ConnectionPool

namespace AsyncConnectionPool

/-- State of `AsyncConnectionPool`: the same fields as the sync pool plus the
lazy `_initialized` flag (here `init_done`). -/
structure AsyncPoolState extends PoolState where
  init_done : Bool
deriving DecidableEq

/-- Embedding of the body of the idle-scan loop of
`AsyncConnectionPool._background_health_check`: a connection past
`max_lifetime` is bad outright; otherwise one idle for more than the
configured `idle_timeout` is probed by reading `is_connection_open` (no SQL)
and is bad when the flag is false (or the access raises). -/
def scan_entry (cfg : PoolConfig) (env : Env) (times : List (ConnId × Int))
    (c : ConnId) (lu : Int) : Bool × Option ProbeKind :=
  if env.now - lookupD times c 0 > cfg.max_lifetime then (true, none)
  else if env.now - lu > cfg.idle_timeout then (!env.isOpen c, some .openFlag)
  else (false, none)

/-- Embedding of `AsyncConnectionPool._initialize_pool`; the loop body is
line for line the sync `_initialize_pool` loop, so the fold is shared. -/
def init_pool (env : Env) (factories : List (Option ConnId)) (s : PoolState) :
    PoolState × List (PoolEvent × ConnId) :=
  ConnectionPool.init_pool env factories s

/-- Embedding of `AsyncConnectionPool.initialize` as invoked from
`get_connection`'s `if not self._initialized: await self.initialize()`:
returns at once when already initialized, otherwise runs `_initialize_pool`,
starts the background tasks (a no-op in this model) and sets
`_initialized`. -/
def lazy_init (env : Env) (facs : List (Option ConnId)) (s : AsyncPoolState) :
    AsyncPoolState × List (PoolEvent × ConnId) :=
  if s.init_done then (s, [])
  else
    ({ toPoolState := (init_pool env facs s.toPoolState).1, init_done := true },
     (init_pool env facs s.toPoolState).2)

/-- Embedding of `AsyncConnectionPool.get_connection`.  A first call runs
`initialize` (pre-creating connections from `init_factories`) before the
`_closed` check.  The fast path is line for line the sync fast path and is
shared.  Unlike the sync pool, a failing factory on the grow path is
re-raised (`except Exception: ...; raise`), surfacing the creation failure;
the wait path, in this sequential model, expires and raises its timeout. -/
def get_connection (cfg : PoolConfig) (env : Env)
    (init_factories : List (Option ConnId)) (factory : Option ConnId)
    (s : AsyncPoolState) :
    AcquireResult × AsyncPoolState × List (PoolEvent × ConnId) :=
  let s' := (lazy_init env init_factories s).1
  let ev0 := (lazy_init env init_factories s).2
  if s'.closed then (.poolClosed, s', ev0)
  else
    let s0 := { s' with acquire_requests := s'.acquire_requests + 1 }
    let start_time := env.now
    let fp := ConnectionPool.fast_path cfg env start_time
      s0.toPoolState.available.reverse s0.toPoolState
    match fp.1 with
    | some c => (.ok c, { s0 with toPoolState := fp.2.1 }, ev0 ++ fp.2.2.1)
    | none =>
      let p1 := fp.2.1
      if p1.all_connections.length < cfg.max_size then
        match factory with
        | some c =>
          (.ok c,
           { s0 with
             toPoolState :=
               { p1 with
                 all_connections := addConn p1.all_connections c
                 in_use := setKey p1.in_use c start_time
                 connection_times := setKey p1.connection_times c start_time
                 connection_usage := setKey p1.connection_usage c 1
                 connections_created := p1.connections_created + 1 } },
           ev0 ++ fp.2.2.1 ++ [(.CONNECTION_CREATED, c), (.POOL_GROW, c)])
        | none =>
          (.creationFailed, { s0 with toPoolState := p1 }, ev0 ++ fp.2.2.1)
      else
        (.timeout,
         { s0 with toPoolState := { p1 with acquire_timeouts := p1.acquire_timeouts + 1 } },
         ev0 ++ fp.2.2.1)

/-- Embedding of `AsyncConnectionPool.return_connection`; the method body is
line for line the sync `return_connection` (with `discard` in place of
`remove`, same semantics), so it is shared. -/
def return_connection (cfg : PoolConfig) (env : Env) (s : PoolState) (c : ConnId) :
    ConnectionPool.CloseOut :=
  ConnectionPool.return_connection cfg env s c

/-- Embedding of `AsyncConnectionPool.close`: a second call returns at once;
the first sets `_closed`, sets `_stop_event` and cancels the background tasks,
closes every idle then every in-use connection and clears both structures
(`_initialized` is never reset). -/
def close (env : Env) (s : AsyncPoolState) :
    AsyncPoolState × List (PoolEvent × ConnId) :=
  if s.closed then (s, [])
  else
    let s0 := { s with closed := true, stopped := true }
    let r1 := ConnectionPool.close_seq env (s0.toPoolState.available.map Prod.fst) s0.toPoolState
    let s2 := { r1.1 with available := ([] : List (ConnId × Int)) }
    let r2 := ConnectionPool.close_seq env (s2.in_use.map Prod.fst) s2
    ({ s0 with toPoolState := { r2.1 with in_use := [] } }, r1.2.1 ++ r2.2.1)

end AsyncConnectionPool

namespace GenericConnectionPool

/-- A connection as seen by `GenericConnectionPool`: its driver behaviour
(whether `cursor()` raises, whether executing the pool's probe statement
raises, whether `close()` raises) and whether it has been closed. -/
structure GConn where
  id : Nat
  cursorFails : Bool
  /-- whether `cur.execute("SELECCT 1")` raises -- the source's probe statement
  is the misspelled `SELECCT 1`, which any real SQL driver rejects -/
  execFails : Bool
  closeFails : Bool
  closed : Bool
deriving DecidableEq

/-- State of `GenericConnectionPool`: the idle list `_pool` and the `_in_use`
set. -/
structure GState where
  pool : List GConn
  in_use : List GConn
deriving DecidableEq

/-- Embedding of `GenericConnectionPool._is_connection_alive`: open a cursor,
execute `SELECCT 1`, then close the connection and report it alive; any raise
reports it dead.  Note that a successful check closes the very connection it
probed before returning `True`. -/
def is_connection_alive (conn : GConn) : Bool × GConn :=
  if conn.cursorFails then (false, conn)
  else if conn.execFails then (false, conn)
  else if conn.closeFails then (false, conn)
  else (true, { conn with closed := true })

/-- Embedding of `GenericConnectionPool.get_connection` under the lock:
pop the last idle connection; when its liveness check fails, rebind `conn` to
a fresh factory connection (the dead one is dropped on the floor — neither
closed nor retained); add the result to `_in_use` and return it.  With an
empty idle list, grow below `max_size` via the factory; otherwise (in this
sequential model) the polling wait expires and the call raises `TimeoutError`
(`none`). -/
def get_connection (max_size : Nat) (fresh : GConn) (s : GState) :
    Option GConn × GState :=
  match s.pool.getLast? with
  | some conn =>
    let rest := s.pool.dropLast
    let a := is_connection_alive conn
    let conn2 := if a.1 then a.2 else fresh
    (some conn2, { pool := rest, in_use := s.in_use ++ [conn2] })
  | none =>
    if s.in_use.length < max_size then
      (some fresh, { s with in_use := s.in_use ++ [fresh] })
    else
      (none, s)

end GenericConnectionPool

/-! ### Concrete fixtures used by witnesses and counterexamples -/

/-- Benign environment: every connection open, no probe or close failures,
clock at 0. -/
def env0 : Env := ⟨fun _ => true, fun _ => false, fun _ => false, 0⟩

/-- Benign environment with the clock at 100 seconds. -/
def env100 : Env := ⟨fun _ => true, fun _ => false, fun _ => false, 100⟩

/-- Empty open pool. -/
def s0 : PoolState :=
  { available := [], in_use := [], all_connections := [], connection_times := [],
    connection_usage := [], closed := false, stopped := false,
    connections_created := 0, connections_closed := 0,
    acquire_requests := 0, acquire_timeouts := 0 }

/-- Open pool holding the single idle connection 1 (the state reached after
creating connection 1 and releasing it). -/
def s3 : PoolState :=
  { s0 with
    available := [(1, 0)], all_connections := [1],
    connection_times := [(1, 0)], connection_usage := [(1, 0)],
    connections_created := 1 }

/-- Open pool with connection 1 checked out. -/
def s4 : PoolState :=
  { s0 with
    in_use := [(1, 0)], all_connections := [1],
    connection_times := [(1, 0)], connection_usage := [(1, 1)],
    connections_created := 1 }

/-- Closed empty pool. -/
def sClosed : PoolState := { s0 with closed := true }

/-- Configuration with `min_size = 3` and `max_idle = 1` (satisfies the
`PoolConfig` invariants of §3: `0 ≤ min_size ≤ max_size`, positive intervals,
`max_idle ≥ 0`). -/
def cfg5 : PoolConfig := { min_size := 3, max_idle := 1 }

/-- Open pool with three fresh idle connections. -/
def s5 : PoolState :=
  { s0 with
    available := [(1, 0), (2, 0), (3, 0)], all_connections := [1, 2, 3],
    connection_times := [(1, 0), (2, 0), (3, 0)],
    connection_usage := [(1, 0), (2, 0), (3, 0)],
    connections_created := 3 }

/-- Configuration with `min_size = 0` and `max_idle = 0` (satisfies the
`PoolConfig` invariants of §3). -/
def cfg7 : PoolConfig := { min_size := 0, max_idle := 0 }

/-- Open pool holding the single fresh idle connection 1. -/
def s7 : PoolState :=
  { s0 with
    available := [(1, 0)], all_connections := [1],
    connection_times := [(1, 0)], connection_usage := [(1, 0)],
    connections_created := 1 }

/-- Closed, never-initialized async pool. -/
def aClosed : AsyncConnectionPool.AsyncPoolState :=
  { toPoolState := sClosed, init_done := false }

/-- Initialized empty open async pool. -/
def a1 : AsyncConnectionPool.AsyncPoolState :=
  { toPoolState := s0, init_done := true }

/-- A connection whose probe statement raises (as the misspelled `SELECCT 1`
does on every real driver): its liveness check fails. -/
def deadc : GenericConnectionPool.GConn := ⟨1, false, true, false, false⟩

/-- A healthy fresh connection. -/
def freshc : GenericConnectionPool.GConn := ⟨2, false, false, false, false⟩

/-! ### Helper lemmas on the container operations -/

theorem removeConn_eq_filter (l : List ConnId) (c : ConnId) :
    removeConn l c = l.filter (fun x => x ≠ c) := by
  induction l with
  | nil => rfl
  | cons y rest ih =>
    by_cases hy : y = c
    · simp [removeConn, hy, ih, List.filter_cons]
    · simp [removeConn, hy, ih, List.filter_cons]

theorem mem_removeConn {l : List ConnId} {c x : ConnId} :
    x ∈ removeConn l c ↔ x ∈ l ∧ x ≠ c := by
  simp [removeConn_eq_filter, List.mem_filter]

theorem removeConn_not_mem {l : List ConnId} {c : ConnId} (h : c ∉ l) :
    removeConn l c = l := by
  induction l with
  | nil => rfl
  | cons y rest ih =>
    have hy : y ≠ c := fun he => h (he ▸ List.mem_cons_self y rest)
    have hr : c ∉ rest := fun hc => h (List.mem_cons_of_mem y hc)
    simp [removeConn, hy, ih hr]

theorem removeConn_nodup {l : List ConnId} {c : ConnId} (h : l.Nodup) :
    (removeConn l c).Nodup := by
  rw [removeConn_eq_filter]
  exact h.filter _

theorem length_removeConn_mem {l : List ConnId} {c : ConnId}
    (hnd : l.Nodup) (hc : c ∈ l) : (removeConn l c).length + 1 = l.length := by
  induction l with
  | nil => cases hc
  | cons y rest ih =>
    rcases List.nodup_cons.mp hnd with ⟨hy, hrest⟩
    by_cases hyc : y = c
    · subst hyc
      simp only [removeConn, if_pos rfl, removeConn_not_mem hy]
      simp
    · have hcr : c ∈ rest := by
        rcases List.mem_cons.mp hc with h | h
        · exact absurd h.symm hyc
        · exact h
      simp only [removeConn, if_neg hyc, List.length_cons]
      have := ih hrest hcr
      omega

theorem mem_addConn {l : List ConnId} {c x : ConnId} :
    x ∈ addConn l c ↔ x ∈ l ∨ x = c := by
  unfold addConn
  by_cases h : c ∈ l
  · simp only [if_pos h]
    exact ⟨Or.inl, fun hx => by rcases hx with hx | rfl; exacts [hx, h]⟩
  · simp [if_neg h]

theorem length_addConn_not_mem {l : List ConnId} {c : ConnId} (h : c ∉ l) :
    (addConn l c).length = l.length + 1 := by
  simp [addConn, if_neg h]

theorem hasKey_mem {α : Type} {m : List (ConnId × α)} {c : ConnId}
    (h : hasKey m c = true) : c ∈ m.map Prod.fst := by
  induction m with
  | nil => simp [hasKey] at h
  | cons p rest ih =>
    rcases p with ⟨k, v⟩
    by_cases hk : k = c
    · simp [hk]
    · simp only [hasKey, if_neg hk] at h
      simpa using Or.inr (ih h)

/-! ### The statistics invariant and structural well-formedness -/

/-- Invariant 5 of §8 of the spec:
`connections_created − connections_closed = |all-connections|`. -/
def statsInv (s : PoolState) : Prop :=
  s.connections_created = s.connections_closed + s.all_connections.length

instance (s : PoolState) : Decidable (statsInv s) := by
  unfold statsInv; infer_instance

/-- Structural well-formedness of a pool state: idle and in-use connections
are tracked in `_all_connections`, and neither the idle deque nor the
all-connections set repeats a connection. -/
structure PoolWF (s : PoolState) : Prop where
  avail_mem : ∀ c ∈ s.available.map Prod.fst, c ∈ s.all_connections
  inuse_mem : ∀ c ∈ s.in_use.map Prod.fst, c ∈ s.all_connections
  avail_nodup : (s.available.map Prod.fst).Nodup
  all_nodup : s.all_connections.Nodup

namespace ConnectionPool

theorem safe_close_st (env : Env) (b : Bool) (s : PoolState) (c : ConnId) :
    (safe_close_connection env b s c).st =
      { s with
        all_connections := removeConn s.all_connections c
        connection_times := eraseKey s.connection_times c
        connection_usage := eraseKey s.connection_usage c } := by
  unfold safe_close_connection
  split <;> rfl

theorem safe_close_calls (env : Env) (b : Bool) (s : PoolState) (c : ConnId) :
    (safe_close_connection env b s c).calls = [⟨.closeConn c, b⟩] := by
  unfold safe_close_connection
  split <;> rfl

/-- Statistics invariant, bookkeeping of `_all_connections` and the lock flag
of driver calls across the fast-path loop. -/
theorem fast_path_spec (cfg : PoolConfig) (env : Env) (t : Int) :
    ∀ (rev : List (ConnId × Int)) (s : PoolState),
      statsInv s →
      (∀ c ∈ rev.map Prod.fst, c ∈ s.all_connections) →
      (rev.map Prod.fst).Nodup →
      s.all_connections.Nodup →
      statsInv (fast_path cfg env t rev s).2.1 ∧
      (fast_path cfg env t rev s).2.1.all_connections.Nodup ∧
      (∀ x ∈ (fast_path cfg env t rev s).2.1.all_connections, x ∈ s.all_connections) := by
  intro rev
  induction rev with
  | nil =>
    intro s hinv _ _ hall
    exact ⟨hinv, hall, fun x hx => hx⟩
  | cons p rest ih =>
    rcases p with ⟨c, lu⟩
    intro s hinv hmem hnd hall
    by_cases hv : quick_validate cfg env s c (some lu)
    · simp only [fast_path, if_pos hv]
      exact ⟨hinv, hall, fun x hx => hx⟩
    · simp only [fast_path, if_neg hv]
      have hcall : c ∈ s.all_connections := hmem c (by simp)
      have hndrest : (rest.map Prod.fst).Nodup := (List.nodup_cons.mp hnd).2
      have hcnr : c ∉ rest.map Prod.fst := (List.nodup_cons.mp hnd).1
      set s1 : PoolState :=
        { (safe_close_connection env true s c).st with
          connections_closed := (safe_close_connection env true s c).st.connections_closed + 1 }
        with hs1
      have hst := safe_close_st env true s c
      have hinv1 : statsInv s1 := by
        have hlen := length_removeConn_mem hall hcall
        simp only [hs1, hst, statsInv] at *
        omega
      have hmem1 : ∀ x ∈ rest.map Prod.fst, x ∈ s1.all_connections := by
        intro x hx
        have hxs : x ∈ s.all_connections := hmem x (by simp [hx])
        have hxc : x ≠ c := fun he => hcnr (he ▸ hx)
        simp only [hs1, hst]
        exact mem_removeConn.mpr ⟨hxs, hxc⟩
      have hall1 : s1.all_connections.Nodup := by
        simp only [hs1, hst]
        exact removeConn_nodup hall
      obtain ⟨h1, h2, h3⟩ := ih s1 hinv1 hmem1 hndrest hall1
      refine ⟨h1, h2, fun x hx => ?_⟩
      have := h3 x hx
      simp only [hs1, hst] at this
      exact (mem_removeConn.mp this).1

/-- Every driver call of the fast-path loop is performed under the lock. -/
theorem fast_path_calls (cfg : PoolConfig) (env : Env) (t : Int) :
    ∀ (rev : List (ConnId × Int)) (s : PoolState),
      ∀ lc ∈ (fast_path cfg env t rev s).2.2.2, lc.lockHeld = true := by
  intro rev
  induction rev with
  | nil => intro s lc hlc; simp [fast_path] at hlc
  | cons p rest ih =>
    rcases p with ⟨c, lu⟩
    intro s lc hlc
    by_cases hv : quick_validate cfg env s c (some lu)
    · simp only [fast_path, if_pos hv] at hlc
      rcases List.mem_singleton.mp hlc with rfl
      rfl
    · simp only [fast_path, if_neg hv, List.mem_append, List.mem_cons,
        safe_close_calls] at hlc
      rcases hlc with (rfl | hlc) | hlc
      · rfl
      · rcases hlc with rfl | h
        · rfl
        · cases h
      · exact ih _ lc hlc

/-- Acquisition preserves the statistics invariant (the factory outcome, when
consulted, must be a genuinely fresh connection object). -/
theorem get_connection_statsInv (cfg : PoolConfig) (env : Env) (factory : Option ConnId)
    (s : PoolState) (hwf : PoolWF s) (hinv : statsInv s)
    (hfresh : ∀ x, factory = some x → x ∉ s.all_connections) :
    statsInv (get_connection cfg env factory s).st := by
  by_cases hc : s.closed
  · simp only [get_connection, if_pos hc]
    exact hinv
  · simp only [get_connection, if_neg hc]
    have hfp := fast_path_spec cfg env env.now
      ({ s with acquire_requests := s.acquire_requests + 1 } : PoolState).available.reverse
      { s with acquire_requests := s.acquire_requests + 1 }
      hinv
      (by
        intro x hx
        apply hwf.avail_mem
        simpa [List.map_reverse] using hx)
      (by simpa [List.map_reverse] using hwf.avail_nodup)
      hwf.all_nodup
    split
    · exact hfp.1
    · split
      · rcases factory with _ | c
        · exact hfp.1
        · have hcfresh : c ∉ (fast_path cfg env env.now
              ({ s with acquire_requests := s.acquire_requests + 1 } : PoolState).available.reverse
              { s with acquire_requests := s.acquire_requests + 1 }).2.1.all_connections := by
            intro hmem
            exact hfresh c rfl (hfp.2.2 c hmem)
          have hlen := length_addConn_not_mem hcfresh
          have h1 := hfp.1
          simp only [statsInv] at *
          omega
      · exact hfp.1

/-- Release of an in-use connection on an open pool preserves the statistics
invariant. -/
theorem return_connection_statsInv (cfg : PoolConfig) (env : Env)
    (s : PoolState) (c : ConnId) (hwf : PoolWF s) (hinv : statsInv s)
    (hc : s.closed = false) (hm : hasKey s.in_use c = true) :
    statsInv (return_connection cfg env s c).st := by
  have hcall : c ∈ s.all_connections := hwf.inuse_mem c (hasKey_mem hm)
  have hlen := length_removeConn_mem hwf.all_nodup hcall
  unfold return_connection
  split
  · rename_i h
    rw [hc] at h
    cases h
  · dsimp only
    split
    · exact hinv
    · simp only [safe_close_st, statsInv] at *
      omega

/-- The scan phase collects a sublist of the scanned idle connections. -/
theorem scan_phase_sublist (cfg : PoolConfig) (env : Env) (times : List (ConnId × Int)) :
    ∀ l : List (ConnId × Int), (scan_phase cfg env times l).1.Sublist (l.map Prod.fst) := by
  intro l
  induction l with
  | nil => simp [scan_phase]
  | cons p rest ih =>
    rcases p with ⟨c, lu⟩
    rcases h : scan_entry cfg env times c lu with ⟨b, pk⟩
    cases b
    · cases pk <;> simp only [scan_phase, h, List.map_cons] <;> exact ih.cons c
    · cases pk <;> simp only [scan_phase, h, List.map_cons] <;> exact ih.cons₂ c

/-- The removal loop of the health check preserves the statistics invariant. -/
theorem remove_bad_statsInv (env : Env) :
    ∀ (bad : List ConnId) (s : PoolState),
      statsInv s → bad.Nodup → (∀ c ∈ bad, c ∈ s.all_connections) →
      s.all_connections.Nodup →
      statsInv (remove_bad env bad s).1 := by
  intro bad
  induction bad with
  | nil => intro s hinv _ _ _; exact hinv
  | cons c rest ih =>
    intro s hinv hnd hmem hall
    simp only [remove_bad]
    set s0 : PoolState := { s with available := removeEntries s.available c } with hs0
    have hcall : c ∈ s0.all_connections := hmem c (by simp)
    have hall0 : s0.all_connections.Nodup := hall
    have hlen := length_removeConn_mem hall0 hcall
    have hst := safe_close_st env true s0 c
    apply ih
    · simp only [hst, statsInv] at *
      omega
    · exact (List.nodup_cons.mp hnd).2
    · intro x hx
      have hxs : x ∈ s.all_connections := hmem x (by simp [hx])
      have hxc : x ≠ c := fun he => (List.nodup_cons.mp hnd).1 (he ▸ hx)
      simp only [hst]
      exact mem_removeConn.mpr ⟨hxs, hxc⟩
    · simp only [hst]
      exact removeConn_nodup hall0

/-- The maintenance scan preserves the statistics invariant. -/
theorem background_health_check_statsInv (cfg : PoolConfig) (env : Env)
    (s : PoolState) (hwf : PoolWF s) (hinv : statsInv s) :
    statsInv (background_health_check cfg env s).1 := by
  by_cases hc : s.closed
  · simp only [background_health_check, if_pos hc]
    exact hinv
  · simp only [background_health_check, if_neg hc]
    have hsub := scan_phase_sublist cfg env s.connection_times s.available
    exact remove_bad_statsInv env _ s hinv
      (hwf.avail_nodup.sublist hsub)
      (fun c hcm => hwf.avail_mem c (hsub.subset hcm))
      hwf.all_nodup

/-- The surplus-removal loop of the shrink pass preserves the statistics
invariant and well-formedness of the idle deque it leaves behind. -/
theorem shrink_phase1_spec (env : Env) (keep : Int) :
    ∀ (avail : List (ConnId × Int)) (s : PoolState),
      statsInv s →
      (∀ c ∈ avail.map Prod.fst, c ∈ s.all_connections) →
      (avail.map Prod.fst).Nodup →
      s.all_connections.Nodup →
      statsInv (shrink_phase1 env keep avail s).1 ∧
      (shrink_phase1 env keep avail s).1.all_connections.Nodup ∧
      (∀ x ∈ (shrink_phase1 env keep avail s).1.available.map Prod.fst,
          x ∈ (shrink_phase1 env keep avail s).1.all_connections) ∧
      ((shrink_phase1 env keep avail s).1.available.map Prod.fst).Nodup := by
  intro avail
  induction avail with
  | nil =>
    intro s hinv _ _ hall
    simp only [shrink_phase1]
    exact ⟨hinv, hall, by simp, by simp⟩
  | cons p rest ih =>
    rcases p with ⟨c, lu⟩
    intro s hinv hmem hnd hall
    by_cases hgt : ((rest.length + 1 : Nat) : Int) > keep
    · simp only [shrink_phase1, if_pos hgt]
      have hcall : c ∈ s.all_connections := hmem c (by simp)
      have hlen := length_removeConn_mem hall hcall
      have hst := safe_close_st env true s c
      apply ih
      · simp only [hst, statsInv] at *
        omega
      · intro x hx
        have hxs : x ∈ s.all_connections := hmem x (by simp [hx])
        have hxc : x ≠ c := fun he => (List.nodup_cons.mp hnd).1 (he ▸ hx)
        simp only [hst]
        exact mem_removeConn.mpr ⟨hxs, hxc⟩
      · exact (List.nodup_cons.mp hnd).2
      · simp only [hst]
        exact removeConn_nodup hall
    · simp only [shrink_phase1, if_neg hgt]
      exact ⟨hinv, hall, hmem, hnd⟩

/-- The idle-timeout pass of the shrink loop preserves the statistics
invariant. -/
theorem shrink_phase2_statsInv (cfg : PoolConfig) (env : Env) :
    ∀ (l : List (ConnId × Int)) (s : PoolState),
      statsInv s →
      (∀ c ∈ l.map Prod.fst, c ∈ s.all_connections) →
      (l.map Prod.fst).Nodup →
      s.all_connections.Nodup →
      statsInv (shrink_phase2 cfg env l s).1 := by
  intro l
  induction l with
  | nil => intro s hinv _ _ _; exact hinv
  | cons p rest ih =>
    rcases p with ⟨c, lu⟩
    intro s hinv hmem hnd hall
    by_cases hto : env.now - lu > cfg.idle_timeout
    · simp only [shrink_phase2, if_pos hto]
      have hcall : c ∈ s.all_connections := hmem c (by simp)
      have hlen := length_removeConn_mem hall hcall
      have hst := safe_close_st env true s c
      apply ih
      · simp only [hst, statsInv] at *
        omega
      · intro x hx
        have hxs : x ∈ s.all_connections := hmem x (by simp [hx])
        have hxc : x ≠ c := fun he => (List.nodup_cons.mp hnd).1 (he ▸ hx)
        simp only [hst]
        exact mem_removeConn.mpr ⟨hxs, hxc⟩
      · exact (List.nodup_cons.mp hnd).2
      · simp only [hst]
        exact removeConn_nodup hall
    · simp only [shrink_phase2, if_neg hto]
      exact ih _ hinv (fun x hx => hmem x (by simp [hx]))
        (List.nodup_cons.mp hnd).2 hall

/-- The shrink pass preserves the statistics invariant. -/
theorem background_shrink_statsInv (cfg : PoolConfig) (env : Env)
    (s : PoolState) (hwf : PoolWF s) (hinv : statsInv s) :
    statsInv (background_shrink cfg env s).1 := by
  unfold background_shrink
  split
  · exact hinv
  · dsimp only
    split
    · exact hinv
    · have h1 := shrink_phase1_spec env
        (max ((cfg.min_size : Int) - (s.in_use.length : Int)) (cfg.max_idle : Int))
        s.available s hinv hwf.avail_mem hwf.avail_nodup hwf.all_nodup
      exact shrink_phase2_statsInv cfg env _ _ h1.1 h1.2.2.1 h1.2.2.2 h1.2.1

/-- On termination of the surplus-removal loop at most `keep` idle entries
remain (when `keep` is non-negative). -/
theorem shrink_phase1_length (env : Env) {keep : Int} (hk : 0 ≤ keep) :
    ∀ (avail : List (ConnId × Int)) (s : PoolState),
      ((shrink_phase1 env keep avail s).1.available.length : Int) ≤ keep := by
  intro avail
  induction avail with
  | nil => intro s; simpa [shrink_phase1] using hk
  | cons p rest ih =>
    rcases p with ⟨c, lu⟩
    intro s
    by_cases hgt : ((rest.length + 1 : Nat) : Int) > keep
    · simp only [shrink_phase1, if_pos hgt]
      exact ih _
    · simp only [shrink_phase1, if_neg hgt]
      push_cast at *
      simp only [List.length_cons]
      push_cast
      omega

/-- The idle-timeout pass never grows the idle deque beyond the entries it was
given plus those already present. -/
theorem shrink_phase2_length (cfg : PoolConfig) (env : Env) :
    ∀ (l : List (ConnId × Int)) (s : PoolState),
      (shrink_phase2 cfg env l s).1.available.length ≤ s.available.length + l.length := by
  intro l
  induction l with
  | nil => intro s; simp [shrink_phase2]
  | cons p rest ih =>
    rcases p with ⟨c, lu⟩
    intro s
    by_cases hto : env.now - lu > cfg.idle_timeout
    · simp only [shrink_phase2, if_pos hto, List.length_cons]
      refine le_trans (ih _) ?_
      simp [safe_close_st]
    · simp only [shrink_phase2, if_neg hto, List.length_cons]
      refine le_trans (ih _) ?_
      simp
      omega

/-- The per-connection loop of `close` never changes the `_closed` flag. -/
theorem close_seq_closed (env : Env) :
    ∀ (l : List ConnId) (s : PoolState), (close_seq env l s).1.closed = s.closed := by
  intro l
  induction l with
  | nil => intro s; rfl
  | cons c rest ih =>
    intro s
    simp only [close_seq]
    rw [ih, safe_close_st]

/-- After `close` the pool is marked closed. -/
theorem close_closed (env : Env) (s : PoolState) : (close env s).1.closed = true := by
  unfold close
  split
  · rename_i h
    exact h
  · simp only [close_seq_closed]

/-- A `close` on an already-closed pool does nothing at all. -/
theorem close_of_closed (env : Env) (s : PoolState) (h : s.closed = true) :
    close env s = (s, [], []) := by
  simp [close, h]

/-- The pre-create loop preserves the statistics invariant when the factory
yields pairwise-distinct genuinely fresh connections. -/
theorem init_pool_statsInv (env : Env) :
    ∀ (facs : List (Option ConnId)) (s : PoolState),
      statsInv s →
      (facs.filterMap id).Nodup →
      (∀ x ∈ facs.filterMap id, x ∉ s.all_connections) →
      statsInv (init_pool env facs s).1 := by
  intro facs
  induction facs with
  | nil => intro s hinv _ _; exact hinv
  | cons f rest ih =>
    intro s hinv hnd hfresh
    rcases f with _ | c
    · simp only [init_pool]
      exact ih s hinv (by simpa using hnd) (by simpa using hfresh)
    · simp only [init_pool]
      have hfm : List.filterMap id (some c :: rest) = c :: rest.filterMap id := by simp
      rw [hfm, List.nodup_cons] at hnd
      have hcs : c ∉ s.all_connections := by
        apply hfresh
        simp
      have hlen := length_addConn_not_mem hcs
      apply ih
      · simp only [statsInv] at *
        simp only [hlen]
        omega
      · exact hnd.2
      · intro x hx
        have hxs : x ∉ s.all_connections := by
          apply hfresh
          simp [hx]
        have hxc : x ≠ c := by
          intro he
          exact hnd.1 (he ▸ hx)
        intro hmem
        rcases mem_addConn.mp hmem with h | h
        · exact hxs h
        · exact hxc h

/-- The pre-create loop never changes the `_closed` flag. -/
theorem init_pool_closed (env : Env) :
    ∀ (facs : List (Option ConnId)) (s : PoolState),
      (init_pool env facs s).1.closed = s.closed := by
  intro facs
  induction facs with
  | nil => intro s; rfl
  | cons f rest ih =>
    intro s
    rcases f with _ | c
    · simp only [init_pool]
      exact ih s
    · simp only [init_pool]
      rw [ih]

end ConnectionPool

/-! ### Event ordering in the shrink pass -/

/-- Event `a` is emitted strictly before event `b` in the trace `tr`. -/
def EmitsInOrder (tr : List (PoolEvent × ConnId)) (a b : PoolEvent × ConnId) : Prop :=
  ∃ l1 l2 l3, tr = l1 ++ a :: l2 ++ b :: l3

theorem EmitsInOrder_cons {tr : List (PoolEvent × ConnId)} {a b x : PoolEvent × ConnId}
    (h : EmitsInOrder tr a b) : EmitsInOrder (x :: tr) a b := by
  obtain ⟨l1, l2, l3, rfl⟩ := h
  exact ⟨x :: l1, l2, l3, rfl⟩

/-- The pair of events every surplus removal of the shrink loop emits, in
source order, concatenated over the removed connections. -/
def shrinkBlocks : List ConnId → List (PoolEvent × ConnId)
  | [] => []
  | c :: rest =>
    (PoolEvent.CONNECTION_CLOSED, c) :: (PoolEvent.POOL_SHRINK, c) :: shrinkBlocks rest

namespace ConnectionPool

/-- With a non-raising driver `close`, the surplus-removal loop's trace is a
sequence of `CONNECTION_CLOSED`-then-`POOL_SHRINK` blocks. -/
theorem shrink_phase1_events (env : Env) (keep : Int)
    (hcr : ∀ x, env.closeRaises x = false) :
    ∀ (avail : List (ConnId × Int)) (s : PoolState),
      ∃ removed : List ConnId,
        (shrink_phase1 env keep avail s).2 = shrinkBlocks removed := by
  intro avail
  induction avail with
  | nil => intro s; exact ⟨[], rfl⟩
  | cons p rest ih =>
    rcases p with ⟨c, lu⟩
    intro s
    by_cases hgt : ((rest.length + 1 : Nat) : Int) > keep
    · simp only [shrink_phase1, if_pos hgt]
      obtain ⟨removed, hr⟩ := ih { s with
        all_connections := removeConn s.all_connections c
        connection_times := eraseKey s.connection_times c
        connection_usage := eraseKey s.connection_usage c
        connections_closed := s.connections_closed + 1 }
      refine ⟨c :: removed, ?_⟩
      simp only [safe_close_connection, hcr c, Bool.false_eq_true, if_false]
      rw [hr]
      rfl
    · simp only [shrink_phase1, if_neg hgt]
      exact ⟨[], rfl⟩

/-- The idle-timeout pass of the shrink loop never emits `POOL_SHRINK`. -/
theorem shrink_phase2_no_shrink (cfg : PoolConfig) (env : Env) :
    ∀ (l : List (ConnId × Int)) (s : PoolState) (c : ConnId),
      (PoolEvent.POOL_SHRINK, c) ∉ (shrink_phase2 cfg env l s).2 := by
  intro l
  induction l with
  | nil => intro s c h; simp [shrink_phase2] at h
  | cons p rest ih =>
    rcases p with ⟨d, lu⟩
    intro s c h
    by_cases hto : env.now - lu > cfg.idle_timeout
    · simp only [shrink_phase2, if_pos hto] at h
      rcases List.mem_append.mp h with h | h
      · unfold safe_close_connection at h
        split at h
        · simp at h
        · rcases List.mem_singleton.mp h with h
          cases h
      · rcases List.mem_cons.mp h with h | h
        · cases h
        · exact ih _ c h
    · simp only [shrink_phase2, if_neg hto] at h
      exact ih _ c h

/-- Inside a block sequence, each `POOL_SHRINK` is preceded by the matching
`CONNECTION_CLOSED`. -/
theorem shrinkBlocks_order :
    ∀ (removed : List ConnId) (c : ConnId) (suffix : List (PoolEvent × ConnId)),
      (PoolEvent.POOL_SHRINK, c) ∈ shrinkBlocks removed →
      EmitsInOrder (shrinkBlocks removed ++ suffix)
        (PoolEvent.CONNECTION_CLOSED, c) (PoolEvent.POOL_SHRINK, c) := by
  intro removed
  induction removed with
  | nil => intro c suffix h; simp [shrinkBlocks] at h
  | cons d rest ih =>
    intro c suffix h
    simp only [shrinkBlocks, List.mem_cons] at h
    rcases h with h | h | h
    · cases h
    · rcases Prod.mk.injEq .. ▸ h with ⟨_, rfl⟩
      exact ⟨[], [], shrinkBlocks rest ++ suffix, by simp [shrinkBlocks]⟩
    · exact EmitsInOrder_cons (EmitsInOrder_cons (ih c suffix h))

end ConnectionPool

namespace AsyncConnectionPool

/-- Lazy initialization never changes the `_closed` flag. -/
theorem lazy_init_closed (env : Env) (facs : List (Option ConnId))
    (s : AsyncPoolState) : (lazy_init env facs s).1.closed = s.closed := by
  unfold lazy_init
  split
  · rfl
  · simp only [init_pool, ConnectionPool.init_pool_closed]

/-- Lazy initialization of an already-initialized pool does nothing. -/
theorem lazy_init_of_init_done (env : Env) (facs : List (Option ConnId))
    (s : AsyncPoolState) (h : s.init_done = true) :
    lazy_init env facs s = (s, []) := by
  simp [lazy_init, h]

/-- After the async `close` the pool is marked closed. -/
theorem aclose_closed (env : Env) (sa : AsyncPoolState) :
    (close env sa).1.closed = true := by
  unfold close
  split
  · rename_i h
    exact h
  · simp only [ConnectionPool.close_seq_closed]

/-- An async `close` on an already-closed pool does nothing at all. -/
theorem aclose_of_closed (env : Env) (sa : AsyncPoolState) (h : sa.closed = true) :
    close env sa = (sa, []) := by
  simp [close, h]

end AsyncConnectionPool

/-! ### Claims -/

/-- C1, counterexample: the claim asserts that when the idle set is empty, the
count is below `max_size` and the factory raises, Acquire surfaces a
connection-creation failure.  At the concrete open empty pool `s0` (idle
empty, `0 < 50 = max_size`) with a raising factory, the sync
`get_connection` does not surface the creation failure — it silently
continues to the wait path and raises its acquire-timeout error. -/
theorem C1_counterexample :
    (ConnectionPool.get_connection {} env0 none s0).res ≠ AcquireResult.creationFailed ∧
    (ConnectionPool.get_connection {} env0 none s0).res = AcquireResult.timeout :=
  ⟨by decide, by decide⟩

/-- C1, amended: with the idle set empty, the total below `max_size` and a
raising factory, the async pool surfaces the creation failure to the caller,
while the sync pool logs it, continues to the wait path and fails with the
acquire timeout. -/
theorem C1_factory_failure (cfg : PoolConfig) (env : Env) (s : PoolState)
    (sa : AsyncConnectionPool.AsyncPoolState) (facs : List (Option ConnId)) :
    (s.closed = false → s.available = [] → s.all_connections.length < cfg.max_size →
      (ConnectionPool.get_connection cfg env none s).res = AcquireResult.timeout) ∧
    (sa.init_done = true → sa.closed = false → sa.available = [] →
      sa.all_connections.length < cfg.max_size →
      (AsyncConnectionPool.get_connection cfg env facs none sa).1 =
        AcquireResult.creationFailed) := by
  constructor
  · intro hc hav hlt
    unfold ConnectionPool.get_connection
    split
    · rename_i h
      rw [hc] at h
      cases h
    · dsimp only
      rw [hav]
      simp only [List.reverse_nil, ConnectionPool.fast_path]
      rw [if_pos hlt]
  · intro hi hc hav hlt
    simp only [AsyncConnectionPool.get_connection,
      AsyncConnectionPool.lazy_init_of_init_done env facs sa hi]
    split
    · rename_i h
      rw [hc] at h
      cases h
    · rw [hav]
      simp only [List.reverse_nil, ConnectionPool.fast_path]
      rw [if_pos hlt]

/-- C1, witness for the amended statement at concrete inputs. -/
theorem C1_witness :
    (ConnectionPool.get_connection {} env0 none s0).res = AcquireResult.timeout ∧
    (AsyncConnectionPool.get_connection {} env0 [] none a1).1 =
      AcquireResult.creationFailed :=
  ⟨(C1_factory_failure {} env0 s0 a1 []).1 rfl rfl (by decide),
   (C1_factory_failure {} env0 s0 a1 []).2 rfl rfl rfl (by decide)⟩

/-- C2: after `Close` both production pools carry the closed flag, and every
acquisition on a closed pool fails with the pool-closed error (in the async
pool also when the lazy initialization has not yet run, since the pre-create
loop never resets the flag). -/
theorem C2_closed_acquire (cfg : PoolConfig) (env : Env) (factory : Option ConnId)
    (s : PoolState) (sa : AsyncConnectionPool.AsyncPoolState)
    (facs : List (Option ConnId)) :
    ((ConnectionPool.close env s).1.closed = true) ∧
    ((AsyncConnectionPool.close env sa).1.closed = true) ∧
    (s.closed = true →
      (ConnectionPool.get_connection cfg env factory s).res = AcquireResult.poolClosed) ∧
    (sa.closed = true →
      (AsyncConnectionPool.get_connection cfg env facs factory sa).1 =
        AcquireResult.poolClosed) := by
  refine ⟨ConnectionPool.close_closed env s, AsyncConnectionPool.aclose_closed env sa,
    ?_, ?_⟩
  · intro h
    simp [ConnectionPool.get_connection, h]
  · intro h
    have hcl : (AsyncConnectionPool.lazy_init env facs sa).1.closed = true :=
      (AsyncConnectionPool.lazy_init_closed env facs sa).trans h
    simp only [AsyncConnectionPool.get_connection]
    rw [if_pos hcl]

/-- C2, witness at concrete closed pools. -/
theorem C2_witness :
    (ConnectionPool.get_connection {} env0 none sClosed).res = AcquireResult.poolClosed ∧
    (AsyncConnectionPool.get_connection {} env0 [] none aClosed).1 =
      AcquireResult.poolClosed :=
  ⟨(C2_closed_acquire {} env0 none sClosed aClosed []).2.2.1 rfl,
   (C2_closed_acquire {} env0 none sClosed aClosed []).2.2.2 rfl⟩

/-- C3, counterexample: the claim asserts that releasing a connection absent
from the in-use set leaves all pool state unchanged.  At `s3`, where
connection 1 sits in the idle deque and in `_all_connections` but not in
`_in_use` (a double release), `return_connection` removes it from
`_all_connections`. -/
theorem C3_counterexample :
    (ConnectionPool.return_connection {} env0 s3 1).st.all_connections ≠
      s3.all_connections := by
  decide

/-- C3, amended: releasing a connection absent from the in-use set on an open
pool closes that connection without touching the idle deque, the in-use map
or the statistics, but it does remove the connection from `_all_connections`,
`_connection_times` and `_connection_usage` when present (the close helper
always performs these removals). -/
theorem C3_non_member_release (cfg : PoolConfig) (env : Env) (s : PoolState)
    (c : ConnId) (hc : s.closed = false) (hm : hasKey s.in_use c = false) :
    (ConnectionPool.return_connection cfg env s c).st.available = s.available ∧
    (ConnectionPool.return_connection cfg env s c).st.in_use = s.in_use ∧
    (ConnectionPool.return_connection cfg env s c).st.connections_created =
      s.connections_created ∧
    (ConnectionPool.return_connection cfg env s c).st.connections_closed =
      s.connections_closed ∧
    (ConnectionPool.return_connection cfg env s c).st.acquire_requests =
      s.acquire_requests ∧
    (ConnectionPool.return_connection cfg env s c).st.acquire_timeouts =
      s.acquire_timeouts ∧
    (ConnectionPool.return_connection cfg env s c).st.all_connections =
      removeConn s.all_connections c ∧
    (ConnectionPool.return_connection cfg env s c).st.connection_times =
      eraseKey s.connection_times c ∧
    (ConnectionPool.return_connection cfg env s c).st.connection_usage =
      eraseKey s.connection_usage c ∧
    (ConnectionPool.return_connection cfg env s c).calls =
      [⟨DriverCall.closeConn c, true⟩] := by
  have he : ConnectionPool.return_connection cfg env s c =
      ConnectionPool.safe_close_connection env true s c := by
    unfold ConnectionPool.return_connection
    simp only [hc, hm, Bool.false_eq_true, if_false]
  rw [he]
  simp [ConnectionPool.safe_close_st, ConnectionPool.safe_close_calls]

/-- C3, witness at the double-release state `s3`. -/
theorem C3_witness :
    (ConnectionPool.return_connection {} env0 s3 1).st.available = s3.available ∧
    (ConnectionPool.return_connection {} env0 s3 1).st.in_use = s3.in_use ∧
    (ConnectionPool.return_connection {} env0 s3 1).st.connections_created =
      s3.connections_created ∧
    (ConnectionPool.return_connection {} env0 s3 1).st.connections_closed =
      s3.connections_closed ∧
    (ConnectionPool.return_connection {} env0 s3 1).st.acquire_requests =
      s3.acquire_requests ∧
    (ConnectionPool.return_connection {} env0 s3 1).st.acquire_timeouts =
      s3.acquire_timeouts ∧
    (ConnectionPool.return_connection {} env0 s3 1).st.all_connections =
      removeConn s3.all_connections 1 ∧
    (ConnectionPool.return_connection {} env0 s3 1).st.connection_times =
      eraseKey s3.connection_times 1 ∧
    (ConnectionPool.return_connection {} env0 s3 1).st.connection_usage =
      eraseKey s3.connection_usage 1 ∧
    (ConnectionPool.return_connection {} env0 s3 1).calls =
      [⟨DriverCall.closeConn 1, true⟩] :=
  C3_non_member_release {} env0 s3 1 rfl rfl

/-- C4, counterexample: the claim asserts
`connections_created − connections_closed = |all|` across Close as well.  At
`s3` the invariant holds before `close`, but `close` empties
`_all_connections` without incrementing `connections_closed`, so it fails
after. -/
theorem C4_counterexample :
    statsInv s3 ∧ ¬ statsInv (ConnectionPool.close env0 s3).1 :=
  ⟨by decide, by decide⟩

/-- C4, amended: on a well-formed pool state the equality
`connections_created = connections_closed + |all|` is preserved by the
pre-create loop (for fresh pairwise-distinct factory results), by
`get_connection` (for a fresh factory result), by `return_connection` of an
in-use connection on an open pool, by the maintenance scan and by the shrink
pass — but not by `close` (see the counterexample), which closes connections
without counting them. -/
theorem C4_stats_invariant (cfg : PoolConfig) (env : Env) (s : PoolState)
    (factory : Option ConnId) (facs : List (Option ConnId)) (c : ConnId)
    (hwf : PoolWF s) (hinv : statsInv s) :
    (((facs.filterMap id).Nodup ∧ ∀ x ∈ facs.filterMap id, x ∉ s.all_connections) →
        statsInv (ConnectionPool.init_pool env facs s).1) ∧
    ((∀ x, factory = some x → x ∉ s.all_connections) →
        statsInv (ConnectionPool.get_connection cfg env factory s).st) ∧
    (s.closed = false → hasKey s.in_use c = true →
        statsInv (ConnectionPool.return_connection cfg env s c).st) ∧
    statsInv (ConnectionPool.background_health_check cfg env s).1 ∧
    statsInv (ConnectionPool.background_shrink cfg env s).1 :=
  ⟨fun h => ConnectionPool.init_pool_statsInv env facs s hinv h.1 h.2,
   fun h => ConnectionPool.get_connection_statsInv cfg env factory s hwf hinv h,
   fun h1 h2 => ConnectionPool.return_connection_statsInv cfg env s c hwf hinv h1 h2,
   ConnectionPool.background_health_check_statsInv cfg env s hwf hinv,
   ConnectionPool.background_shrink_statsInv cfg env s hwf hinv⟩

/-- C4, witness: the five preserved operations evaluated at concrete states
(`s3` one idle connection, `s4` one checked-out connection). -/
theorem C4_witness :
    statsInv (ConnectionPool.init_pool env0 [some 9] s3).1 ∧
    statsInv (ConnectionPool.get_connection {} env0 (some 9) s3).st ∧
    statsInv (ConnectionPool.return_connection {} env0 s4 1).st ∧
    statsInv (ConnectionPool.background_health_check {} env0 s3).1 ∧
    statsInv (ConnectionPool.background_shrink {} env0 s3).1 := by
  have hwf3 : PoolWF s3 := ⟨by decide, by decide, by decide, by decide⟩
  have hwf4 : PoolWF s4 := ⟨by decide, by decide, by decide, by decide⟩
  have h3 := C4_stats_invariant {} env0 s3 (some 9) [some 9] 1 hwf3 (by decide)
  have h4 := C4_stats_invariant {} env0 s4 none [] 1 hwf4 (by decide)
  refine ⟨h3.1 ⟨by decide, by decide⟩, h3.2.1 ?_, h4.2.2.1 rfl rfl, h3.2.2.2.1,
    h3.2.2.2.2⟩
  intro x hx
  injection hx with h
  subst h
  decide

/-- C5, counterexample: the claim asserts that one shrink pass leaves at most
`max_idle` idle connections for every valid configuration and state.  With
`min_size = 3 > 1 = max_idle` (a configuration satisfying the `PoolConfig`
invariants of §3) and three fresh idle connections, the pass returns early
(`total ≤ min_size`) and leaves 3 idle connections. -/
theorem C5_counterexample :
    cfg5.min_size ≤ cfg5.max_size ∧ 0 < cfg5.connection_timeout ∧
    0 < cfg5.max_lifetime ∧ 0 < cfg5.idle_timeout ∧
    0 < cfg5.health_check_interval ∧ 0 < cfg5.shrink_interval ∧
    s5.closed = false ∧
    ¬ ((ConnectionPool.background_shrink cfg5 env0 s5).1.available.length ≤
        cfg5.max_idle) := by
  decide

/-- C5, amended: one shrink pass on an open pool leaves at most
`max(min_size, max_idle)` idle connections — the source keeps
`max(min_size − |in-use|, max_idle)` idle entries and skips the pass entirely
when `|idle| + |in-use| ≤ min_size`, so `max_idle` alone does not bound the
remainder. -/
theorem C5_shrink_idle_bound (cfg : PoolConfig) (env : Env) (s : PoolState)
    (hc : s.closed = false) :
    (ConnectionPool.background_shrink cfg env s).1.available.length ≤
      max cfg.min_size cfg.max_idle := by
  unfold ConnectionPool.background_shrink
  split
  · rename_i h
    rw [hc] at h
    cases h
  · dsimp only
    split
    · rename_i h
      have h1 : cfg.min_size ≤ max cfg.min_size cfg.max_idle := le_max_left _ _
      show s.available.length ≤ max cfg.min_size cfg.max_idle
      omega
    · dsimp only
      have hk : (0 : Int) ≤
          max ((cfg.min_size : Int) - (s.in_use.length : Int)) (cfg.max_idle : Int) :=
        le_trans (Int.ofNat_nonneg cfg.max_idle) (le_max_right _ _)
      have h1 := ConnectionPool.shrink_phase1_length env hk s.available s
      have h2 := ConnectionPool.shrink_phase2_length cfg env
        (ConnectionPool.shrink_phase1 env
          (max ((cfg.min_size : Int) - (s.in_use.length : Int)) (cfg.max_idle : Int))
          s.available s).1.available
        { (ConnectionPool.shrink_phase1 env
            (max ((cfg.min_size : Int) - (s.in_use.length : Int)) (cfg.max_idle : Int))
            s.available s).1 with available := [] }
      have hkle : max ((cfg.min_size : Int) - (s.in_use.length : Int)) (cfg.max_idle : Int) ≤
          (max cfg.min_size cfg.max_idle : Nat) := by
        have ha : ((cfg.min_size : Int) - (s.in_use.length : Int)) ≤
            ((max cfg.min_size cfg.max_idle : Nat) : Int) := by
          have := le_max_left cfg.min_size cfg.max_idle
          push_cast
          omega
        have hb : ((cfg.max_idle : Nat) : Int) ≤
            ((max cfg.min_size cfg.max_idle : Nat) : Int) := by
          have := le_max_right cfg.min_size cfg.max_idle
          push_cast
          omega
        exact max_le ha hb
      have hd := le_trans h1 hkle
      simp only [List.length_nil] at h2
      omega

/-- C5, witness: the amended bound at the concrete configuration `cfg5`. -/
theorem C5_witness :
    (ConnectionPool.background_shrink cfg5 env0 s5).1.available.length ≤
      max cfg5.min_size cfg5.max_idle :=
  C5_shrink_idle_bound cfg5 env0 s5 rfl

/-- C6, counterexample: the claim asserts that an idle connection not past
`max_lifetime` is probed exactly when its idle duration exceeds the
configured `idle_timeout`, and never via SQL.  With the default configuration
(`idle_timeout = 300`) and a connection idle for only 100 seconds, the sync
maintenance scan probes it anyway (its threshold is a hardcoded 60 seconds)
and the probe issues SQL (`SELECT 1` through a cursor). -/
theorem C6_counterexample :
    (ConnectionPool.scan_entry {} env100 [(1, 0)] 1 0).2 = some ProbeKind.sqlSelect1 ∧
    ¬ (env100.now - (0 : Int) > ({} : PoolConfig).idle_timeout) :=
  ⟨by decide, by decide⟩

/-- C6, amended: for an idle connection not past `max_lifetime`, the async
maintenance scan probes exactly when the idle duration exceeds the configured
`idle_timeout` and only via the non-SQL `is_connection_open` flag, whereas
the sync maintenance scan probes exactly when the idle duration exceeds a
hardcoded 60 seconds and does so by executing SQL. -/
theorem C6_probe_policy (cfg : PoolConfig) (env : Env) (times : List (ConnId × Int))
    (c : ConnId) (lu : Int)
    (hlife : ¬ (env.now - lookupD times c 0 > cfg.max_lifetime)) :
    ((ConnectionPool.scan_entry cfg env times c lu).2.isSome ↔ env.now - lu > 60) ∧
    (ConnectionPool.scan_entry cfg env times c lu).2 ≠ some ProbeKind.openFlag ∧
    ((AsyncConnectionPool.scan_entry cfg env times c lu).2.isSome ↔
      env.now - lu > cfg.idle_timeout) ∧
    (AsyncConnectionPool.scan_entry cfg env times c lu).2 ≠ some ProbeKind.sqlSelect1 := by
  unfold ConnectionPool.scan_entry AsyncConnectionPool.scan_entry
  rw [if_neg hlife, if_neg hlife]
  by_cases h60 : env.now - lu > 60 <;>
    by_cases hidle : env.now - lu > cfg.idle_timeout <;>
      simp [h60, hidle]

/-- C6, witness for the amended statement at a concrete scan entry. -/
theorem C6_witness :
    ((ConnectionPool.scan_entry {} env100 [(1, 0)] 1 0).2.isSome ↔
      env100.now - 0 > 60) ∧
    (ConnectionPool.scan_entry {} env100 [(1, 0)] 1 0).2 ≠ some ProbeKind.openFlag ∧
    ((AsyncConnectionPool.scan_entry {} env100 [(1, 0)] 1 0).2.isSome ↔
      env100.now - 0 > ({} : PoolConfig).idle_timeout) ∧
    (AsyncConnectionPool.scan_entry {} env100 [(1, 0)] 1 0).2 ≠
      some ProbeKind.sqlSelect1 :=
  C6_probe_policy {} env100 [(1, 0)] 1 0 (by decide)

/-- C7, counterexample: the claim asserts that each surplus removal of the
shrink pass emits `POOL_SHRINK` first and `CONNECTION_CLOSED` after it.  At
the concrete state `s7` (one fresh idle connection, `min_size = max_idle =
0`), the pass removes the connection and its trace is
`CONNECTION_CLOSED` followed by `POOL_SHRINK` — the claimed order never
occurs in it. -/
theorem C7_counterexample :
    (ConnectionPool.background_shrink cfg7 env0 s7).2 =
      [(PoolEvent.CONNECTION_CLOSED, 1), (PoolEvent.POOL_SHRINK, 1)] ∧
    ¬ EmitsInOrder (ConnectionPool.background_shrink cfg7 env0 s7).2
        (PoolEvent.POOL_SHRINK, 1) (PoolEvent.CONNECTION_CLOSED, 1) := by
  have htr : (ConnectionPool.background_shrink cfg7 env0 s7).2 =
      [(PoolEvent.CONNECTION_CLOSED, 1), (PoolEvent.POOL_SHRINK, 1)] := by decide
  refine ⟨htr, ?_⟩
  rw [htr]
  rintro ⟨l1, l2, l3, h⟩
  rcases l1 with _ | ⟨x, l1⟩
  · simp at h
  · rcases l1 with _ | ⟨y, l1⟩
    · simp at h
    · simp at h

/-- C7, amended: for every connection removed as surplus by the shrink pass
(with a non-raising driver close), the trace emits `CONNECTION_CLOSED` first
and `POOL_SHRINK` after it — the source's `_safe_close_connection` fires
`CONNECTION_CLOSED` before the explicit `POOL_SHRINK` event. -/
theorem C7_shrink_event_order (cfg : PoolConfig) (env : Env) (s : PoolState)
    (c : ConnId) (hcr : ∀ x, env.closeRaises x = false)
    (hm : (PoolEvent.POOL_SHRINK, c) ∈ (ConnectionPool.background_shrink cfg env s).2) :
    EmitsInOrder (ConnectionPool.background_shrink cfg env s).2
      (PoolEvent.CONNECTION_CLOSED, c) (PoolEvent.POOL_SHRINK, c) := by
  unfold ConnectionPool.background_shrink at hm ⊢
  by_cases hcl : s.closed = true
  · rw [if_pos hcl] at hm
    simp at hm
  · rw [if_neg hcl] at hm ⊢
    dsimp only at hm ⊢
    by_cases hts : s.available.length + s.in_use.length ≤ cfg.min_size
    · rw [if_pos hts] at hm
      simp at hm
    · rw [if_neg hts] at hm ⊢
      dsimp only at hm ⊢
      obtain ⟨removed, hre⟩ := ConnectionPool.shrink_phase1_events env
        (max ((cfg.min_size : Int) - (s.in_use.length : Int)) (cfg.max_idle : Int)) hcr
        s.available s
      rw [hre] at hm ⊢
      rcases List.mem_append.mp hm with hmem | hmem
      · exact ConnectionPool.shrinkBlocks_order removed c _ hmem
      · exact absurd hmem (ConnectionPool.shrink_phase2_no_shrink cfg env _ _ c)

/-- C7, witness for the amended order at the concrete state `s7`. -/
theorem C7_witness :
    EmitsInOrder (ConnectionPool.background_shrink cfg7 env0 s7).2
      (PoolEvent.CONNECTION_CLOSED, 1) (PoolEvent.POOL_SHRINK, 1) :=
  C7_shrink_event_order cfg7 env0 s7 1 (fun _ => rfl) (by decide)

/-- C8: `close` is idempotent for both production pools — a second `close`
returns the state unchanged, performs no connection operations and emits no
events (the sync triple also carries the empty driver-call list). -/
theorem C8_close_idempotent (env : Env) (s : PoolState)
    (sa : AsyncConnectionPool.AsyncPoolState) :
    ConnectionPool.close env (ConnectionPool.close env s).1 =
      ((ConnectionPool.close env s).1, [], []) ∧
    AsyncConnectionPool.close env (AsyncConnectionPool.close env sa).1 =
      ((AsyncConnectionPool.close env sa).1, []) :=
  ⟨ConnectionPool.close_of_closed env _ (ConnectionPool.close_closed env s),
   AsyncConnectionPool.aclose_of_closed env _ (AsyncConnectionPool.aclose_closed env sa)⟩

namespace GenericConnectionPool

/-- A failed liveness check returns the probed connection unchanged (in
particular it does not close it). -/
theorem is_connection_alive_dead {c : GConn}
    (h : (is_connection_alive c).1 = false) : (is_connection_alive c).2 = c := by
  unfold is_connection_alive at h ⊢
  split_ifs at h ⊢ <;> rfl

/-- A successful liveness check has closed the connection it probed. -/
theorem is_connection_alive_closes (c₀ c₁ : GConn)
    (h : is_connection_alive c₀ = (true, c₁)) : c₁.closed = true := by
  unfold is_connection_alive at h
  split_ifs at h <;> simp only [Prod.mk.injEq] at h
  · exact absurd h.1 Bool.false_ne_true
  · exact absurd h.1 Bool.false_ne_true
  · exact absurd h.1 Bool.false_ne_true
  · rw [← h.2]

end GenericConnectionPool

/-- C9: in `GenericConnectionPool.get_connection`, when the popped idle
connection fails its liveness check, the pool hands out the fresh factory
connection instead; the dead connection is dropped — returned unchanged by
the check (so never closed) and retained in neither `_pool` nor `_in_use`.
Moreover the liveness check itself closes the connection it probes before
reporting success. -/
theorem C9_dead_idle_replacement (max_size : Nat)
    (fresh c : GenericConnectionPool.GConn)
    (rest inuse : List GenericConnectionPool.GConn)
    (hdead : (GenericConnectionPool.is_connection_alive c).1 = false)
    (hcr : c ∉ rest) (hcf : c ≠ fresh) (hci : c ∉ inuse) :
    (GenericConnectionPool.get_connection max_size fresh ⟨rest ++ [c], inuse⟩).1 =
      some fresh ∧
    (GenericConnectionPool.get_connection max_size fresh ⟨rest ++ [c], inuse⟩).2.pool =
      rest ∧
    (GenericConnectionPool.get_connection max_size fresh ⟨rest ++ [c], inuse⟩).2.in_use =
      inuse ++ [fresh] ∧
    c ∉ (GenericConnectionPool.get_connection max_size fresh ⟨rest ++ [c], inuse⟩).2.pool ∧
    c ∉ (GenericConnectionPool.get_connection max_size fresh ⟨rest ++ [c], inuse⟩).2.in_use ∧
    (GenericConnectionPool.is_connection_alive c).2 = c ∧
    (∀ c₀ c₁, GenericConnectionPool.is_connection_alive c₀ = (true, c₁) →
      c₁.closed = true) := by
  have hg : GenericConnectionPool.get_connection max_size fresh ⟨rest ++ [c], inuse⟩ =
      (some fresh, ⟨rest, inuse ++ [fresh]⟩) := by
    unfold GenericConnectionPool.get_connection
    simp only [List.getLast?_concat, List.dropLast_concat, hdead, Bool.false_eq_true,
      if_false]
  rw [hg]
  refine ⟨rfl, rfl, rfl, hcr, ?_, GenericConnectionPool.is_connection_alive_dead hdead,
    GenericConnectionPool.is_connection_alive_closes⟩
  intro hmem
  rcases List.mem_append.mp hmem with h | h
  · exact hci h
  · exact hcf (List.mem_singleton.mp h)

/-- C9, witness at a concrete dead connection and fresh replacement. -/
theorem C9_witness :
    (GenericConnectionPool.get_connection 10 freshc ⟨[] ++ [deadc], []⟩).1 =
      some freshc ∧
    (GenericConnectionPool.get_connection 10 freshc ⟨[] ++ [deadc], []⟩).2.pool = [] ∧
    (GenericConnectionPool.get_connection 10 freshc ⟨[] ++ [deadc], []⟩).2.in_use =
      [] ++ [freshc] ∧
    deadc ∉ (GenericConnectionPool.get_connection 10 freshc ⟨[] ++ [deadc], []⟩).2.pool ∧
    deadc ∉ (GenericConnectionPool.get_connection 10 freshc ⟨[] ++ [deadc], []⟩).2.in_use ∧
    (GenericConnectionPool.is_connection_alive deadc).2 = deadc ∧
    (∀ c₀ c₁, GenericConnectionPool.is_connection_alive c₀ = (true, c₁) →
      c₁.closed = true) :=
  C9_dead_idle_replacement 10 freshc deadc [] [] (by decide) (by decide) (by decide)
    (by decide)

/-- C10, counterexample: the claim asserts that the pool performs every
driver operation without holding the critical section.  At the empty open
pool `s0`, the grow path of the sync `get_connection` calls the factory while
holding the lock — its sole driver call carries the lock flag. -/
theorem C10_counterexample :
    (ConnectionPool.get_connection {} env0 (some 7) s0).calls =
      [⟨DriverCall.create, true⟩] ∧
    ¬ (∀ lc ∈ (ConnectionPool.get_connection {} env0 (some 7) s0).calls,
        lc.lockHeld = false) :=
  ⟨by decide, by decide⟩

/-- C10, amended: the sync pool performs every driver operation of
`get_connection` (validate, close, factory-create) and — on an open pool —
of `return_connection` (validate, rollback, close) while holding the
critical section; the single exception is `return_connection` on a closed
pool, whose close runs before the lock is taken. -/
theorem C10_lock_discipline (cfg : PoolConfig) (env : Env) (factory : Option ConnId)
    (s : PoolState) (c : ConnId) :
    (∀ lc ∈ (ConnectionPool.get_connection cfg env factory s).calls,
        lc.lockHeld = true) ∧
    (s.closed = false →
      ∀ lc ∈ (ConnectionPool.return_connection cfg env s c).calls,
        lc.lockHeld = true) ∧
    (s.closed = true →
      (ConnectionPool.return_connection cfg env s c).calls =
        [⟨DriverCall.closeConn c, false⟩]) := by
  refine ⟨?_, ?_, ?_⟩
  · intro lc hlc
    unfold ConnectionPool.get_connection at hlc
    split at hlc
    · simp at hlc
    · dsimp only at hlc
      split at hlc
      · exact ConnectionPool.fast_path_calls cfg env env.now _ _ lc hlc
      · split at hlc
        · rcases factory with _ | d
          · rcases List.mem_append.mp hlc with h | h
            · exact ConnectionPool.fast_path_calls cfg env env.now _ _ lc h
            · rcases List.mem_singleton.mp h with rfl
              rfl
          · rcases List.mem_append.mp hlc with h | h
            · exact ConnectionPool.fast_path_calls cfg env env.now _ _ lc h
            · rcases List.mem_singleton.mp h with rfl
              rfl
        · exact ConnectionPool.fast_path_calls cfg env env.now _ _ lc hlc
  · intro hc lc hlc
    unfold ConnectionPool.return_connection at hlc
    split at hlc
    · rename_i h
      rw [hc] at h
      cases h
    · dsimp only at hlc
      split at hlc
      · split at hlc
        · rcases List.mem_cons.mp hlc with rfl | h
          · rfl
          · rcases List.mem_singleton.mp h with rfl
            rfl
        · rcases List.mem_cons.mp hlc with rfl | h
          · rfl
          · rw [ConnectionPool.safe_close_calls] at h
            rcases List.mem_singleton.mp h with rfl
            rfl
      · rw [ConnectionPool.safe_close_calls] at hlc
        rcases List.mem_singleton.mp hlc with rfl
        rfl
  · intro h
    unfold ConnectionPool.return_connection
    rw [if_pos h, ConnectionPool.safe_close_calls]

/-- C10, witness: the amended lock facts at concrete inputs (the grow path on
`s0`, a normal release on `s4`, and a release on the closed pool). -/
theorem C10_witness :
    (∀ lc ∈ (ConnectionPool.get_connection {} env0 (some 7) s0).calls,
        lc.lockHeld = true) ∧
    (∀ lc ∈ (ConnectionPool.return_connection {} env0 s4 1).calls,
        lc.lockHeld = true) ∧
    (ConnectionPool.return_connection {} env0 sClosed 1).calls =
      [⟨DriverCall.closeConn 1, false⟩] :=
  ⟨(C10_lock_discipline {} env0 (some 7) s0 1).1,
   (C10_lock_discipline {} env0 none s4 1).2.1 rfl,
   (C10_lock_discipline {} env0 none sClosed 1).2.2 rfl⟩

end Nexios
